import Mathlib

/-!
Verification development for the LLM-TextKit repository.

The Python sources are shallowly embedded: DataFrames become lists of rows,
cells that may hold NaN become `Option String`, fallible operations return
`Except`, and the regular expressions used by `utils/text_utils.py` are
replaced by equivalent executable character-list predicates.
-/

/-! ### Character classes (models of Python `\s`, `\p{P}`, `\p{L}\p{N}`, CJK) -/

/-- The ASCII characters Python treats as whitespace: `str.strip()` (and the
`re` whitespace class) use `Py_UNICODE_ISSPACE`, whose ASCII members are
0x09-0x0d, 0x1c-0x1f and 0x20.  This is the exact restriction of Python's
whitespace to ASCII; Unicode-only whitespace (e.g. U+3000) is outside the
modelled domain, so the validity theorem below is stated for ASCII
strings. -/
def isPySpace (c : Char) : Bool :=
  c = ' ' || c = '\t' || c = '\n' || c = '\r' || c = '\x0b' || c = '\x0c'
    || c = '\x1c' || c = '\x1d' || c = '\x1e' || c = '\x1f'

/-- Model of the Unicode punctuation class `\p{P}` restricted to ASCII
(the ASCII characters of Unicode general category P). -/
def isPyPunct (c : Char) : Bool :=
  c ∈ ['!', '"', '#', '%', '&', '\'', '(', ')', '*', ',', '-', '.', '/',
       ':', ';', '?', '@', '[', '\\', ']', '_', '\x7b', '\x7d']

/-- Chars in the CJK Unified Ideographs block, U+4E00 to U+9FFF: the class
`[一-鿿]` used by `contains_chinese` in `ai_translation.py`. -/
def isCJK (c : Char) : Bool :=
  0x4e00 ≤ c.toNat && c.toNat ≤ 0x9fff

/-- Model of `\p{L}\p{N}` (letter or number), restricted to ASCII
alphanumerics plus the CJK ideograph block. -/
def isAlnumU (c : Char) : Bool :=
  c.isAlphanum || isCJK c

/-! ### Python string helpers used by `utils/text_utils.py` -/

/-- `str.strip()` on a character list: drop leading and trailing whitespace. -/
def pyStripL (l : List Char) : List Char :=
  ((l.dropWhile isPySpace).reverse.dropWhile isPySpace).reverse

/-- `str.isdigit()`: non-empty and all digits.  Exact on ASCII: among ASCII
characters only `'0'`-`'9'` are digits for Python.  Unicode digits (e.g.
U+0661) are outside the modelled domain, so the validity theorem below is
stated for ASCII strings. -/
def isDigitStr (l : List Char) : Bool :=
  !l.isEmpty && l.all Char.isDigit

/-- Number of maximal runs of equal adjacent characters. -/
def runCount : List Char → Nat
  | [] => 0
  | [_] => 1
  | a :: b :: t => (if a = b then 0 else 1) + runCount (b :: t)

/-- Model of `re.match(r"^(.)\1*(?:(.)\2*){0,2}$", text)` from
`is_valid_text`.  Without `re.DOTALL`, `.` matches any character except a
newline, and every character of a matching string is consumed either by
`(.)` or by a backreference to what `(.)` captured — so a string containing
`'\n'` can never match (the stripped text also cannot end in a newline, so
`$` adds nothing).  On newline-free strings, backtracking matches exactly
the non-empty strings that decompose into at most three blocks, each a
single repeated character — equivalently, whose number of maximal
equal-character runs is at most 3. -/
def matchesRepeatGroups (l : List Char) : Bool :=
  !l.isEmpty && l.all (fun c => !(c = '\n' : Bool)) && decide (runCount l ≤ 3)

/-- Embedding of `is_valid_text` from `utils/text_utils.py` (the inner
predicate of `filter_invalid_text`), on an already-`str` value.  The Python
code strips the text and returns False when the stripped text is empty, is
all whitespace/punctuation, is all digits, has a single distinct character,
matches the at-most-three-runs regex, or contains no letter/number. -/
def is_valid_text (text : String) : Bool :=
  let t := pyStripL text.toList
  !(t.isEmpty
    || t.all (fun c => isPySpace c || isPyPunct c)
    || isDigitStr t
    || t.dedup.length == 1
    || matchesRepeatGroups t
    || !(t.any isAlnumU))

/-- A DataFrame cell: `none` models NaN.  `is_valid_text` is only reached
for non-NaN cells; `pd.isna` makes NaN invalid directly. -/
def is_valid_cell : Option String → Bool
  | none => false
  | some s => is_valid_text s

/-- Embedding of `filter_invalid_text`: boolean-mask row filtering
`df[df[text_col].apply(is_valid_text)]`, which keeps exactly the rows whose
text cell is valid, in their original order.  A row type `α` with a cell
projection for the chosen text column models the DataFrame row. -/
def filter_invalid_text {α : Type} (textOf : α → Option String) (df : List α) :
    List α :=
  df.filter (fun r => is_valid_cell (textOf r))

example : is_valid_text "abc" = false := by decide
example : is_valid_text "abcd" = true := by decide
example : is_valid_text "aaa" = false := by decide
example : is_valid_text "1234" = false := by decide
example : is_valid_text "hello world this is valid" = true := by decide

/-! ### Batching (`for i in range(0, len(xs), B): xs[i : i + B]`)

Both `batch_texts` in `clustering_workflow.py` and the table loop of
`dataframe_to_markdown_tables` in `text_utils.py` slice a sequence into
contiguous groups of `B` elements via `range(0, len, B)`.  The slicing loop
is embedded as `chunks`; a fuel argument (the list length) makes the
recursion structural.  Python raises for `B = 0`, so all statements assume
`1 ≤ B`. -/

def chunksGo {α : Type} (B : Nat) : Nat → List α → List (List α)
  | 0, _ => []
  | _, [] => []
  | fuel + 1, a :: l => (a :: l).take B :: chunksGo B fuel ((a :: l).drop B)

/-- The batch slices `xs[0:B], xs[B:2B], …` of the Python slicing loop. -/
def chunks {α : Type} (l : List α) (B : Nat) : List (List α) :=
  chunksGo B l.length l

/-- Embedding of `batch_texts` from `clustering_workflow.py`: each slice is
joined with a single space. -/
def batch_texts (texts : List String) (batch_size : Nat) : List String :=
  (chunks texts batch_size).map (fun b => String.intercalate " " b)

theorem chunksGo_zero {α : Type} (B : Nat) (l : List α) :
    chunksGo B 0 l = [] := by
  cases l <;> rfl

theorem chunksGo_nil {α : Type} (B fuel : Nat) :
    chunksGo (α := α) B fuel [] = [] := by
  cases fuel <;> rfl

theorem chunksGo_join {α : Type} (B : Nat) (hB : 1 ≤ B) :
    ∀ (fuel : Nat) (l : List α), l.length ≤ fuel →
      (chunksGo B fuel l).flatten = l := by
  intro fuel
  induction fuel with
  | zero =>
    intro l hl
    have : l = [] := List.eq_nil_of_length_eq_zero (Nat.le_zero.mp hl)
    subst this; rfl
  | succ n ih =>
    intro l hl
    cases l with
    | nil => rfl
    | cons a t =>
      have hlen : ((a :: t).drop B).length ≤ n := by
        simp only [List.length_drop, List.length_cons]
        simp only [List.length_cons] at hl
        omega
      simp only [chunksGo, List.flatten_cons, ih _ hlen, List.take_append_drop]

theorem chunksGo_length {α : Type} (B : Nat) (hB : 1 ≤ B) :
    ∀ (fuel : Nat) (l : List α), l.length ≤ fuel →
      (chunksGo B fuel l).length = (l.length + B - 1) / B := by
  intro fuel
  induction fuel with
  | zero =>
    intro l hl
    have : l = [] := List.eq_nil_of_length_eq_zero (Nat.le_zero.mp hl)
    subst this
    simp only [chunksGo, List.length_nil]
    exact (Nat.div_eq_of_lt (by omega)).symm
  | succ n ih =>
    intro l hl
    cases l with
    | nil =>
      simp only [chunksGo, List.length_nil]
      exact (Nat.div_eq_of_lt (by omega)).symm
    | cons a t =>
      have hlen : ((a :: t).drop B).length ≤ n := by
        simp only [List.length_drop, List.length_cons]
        simp only [List.length_cons] at hl
        omega
      simp only [chunksGo, List.length_cons]
      rw [ih _ hlen]
      simp only [List.length_drop, List.length_cons]
      rcases Nat.lt_or_ge (t.length + 1) B with h | h
      · have h0 : t.length + 1 - B = 0 := by omega
        have h2 : (t.length + 1 + B - 1) / B = 1 :=
          Nat.div_eq_of_lt_le (by omega) (by omega)
        rw [h0, Nat.div_eq_of_lt (show 0 + B - 1 < B by omega), h2]
      · have h1 : t.length + 1 - B + B - 1 = t.length := by omega
        have h2 : t.length + 1 + B - 1 = t.length + B := by omega
        rw [h1, h2, Nat.add_div_right _ (by omega)]

theorem chunksGo_mem_length {α : Type} (B : Nat) (hB : 1 ≤ B) :
    ∀ (fuel : Nat) (l : List α) (c : List α), c ∈ chunksGo B fuel l →
      1 ≤ c.length ∧ c.length ≤ B := by
  intro fuel
  induction fuel with
  | zero => intro l c hc; simp [chunksGo] at hc
  | succ n ih =>
    intro l c hc
    cases l with
    | nil => simp [chunksGo] at hc
    | cons a t =>
      simp only [chunksGo, List.mem_cons] at hc
      rcases hc with hc | hc
      · subst hc
        constructor
        · simp only [List.length_take, List.length_cons]
          omega
        · simp only [List.length_take]
          omega
      · exact ih _ _ hc

theorem chunksGo_mem_subset {α : Type} (B : Nat) :
    ∀ (fuel : Nat) (l : List α) (c : List α), c ∈ chunksGo B fuel l →
      ∀ x ∈ c, x ∈ l := by
  intro fuel
  induction fuel with
  | zero => intro l c hc; simp [chunksGo] at hc
  | succ n ih =>
    intro l c hc x hx
    cases l with
    | nil => simp [chunksGo] at hc
    | cons a t =>
      simp only [chunksGo, List.mem_cons] at hc
      rcases hc with hc | hc
      · subst hc; exact List.mem_of_mem_take hx
      · exact List.mem_of_mem_drop (ih _ _ hc x hx)

theorem chunksGo_get_length {α : Type} (B : Nat) (hB : 1 ≤ B) :
    ∀ (fuel : Nat) (l : List α) (i : Nat), l.length ≤ fuel →
      i + 1 < (chunksGo B fuel l).length →
      ((chunksGo B fuel l).getD i []).length = B := by
  intro fuel
  induction fuel with
  | zero => intro l i _ hi; simp [chunksGo] at hi
  | succ n ih =>
    intro l i hl hi
    cases l with
    | nil => simp [chunksGo] at hi
    | cons a t =>
      have hlen : ((a :: t).drop B).length ≤ n := by
        simp only [List.length_drop, List.length_cons]
        simp only [List.length_cons] at hl
        omega
      cases i with
      | zero =>
        simp only [chunksGo, List.length_cons] at hi
        have hne : chunksGo B n ((a :: t).drop B) ≠ [] := by
          intro h; rw [h] at hi; simp at hi
        have hdrop : (a :: t).drop B ≠ [] := by
          intro h
          have : chunksGo B n ((a :: t).drop B) = [] := by
            cases n with
            | zero => exact chunksGo_zero B _
            | succ m => rw [h]; exact chunksGo_nil B _
          exact hne this
        have hlong : B < (a :: t).length := by
          by_contra hcon
          exact hdrop (List.drop_eq_nil_of_le (by omega))
        simp only [chunksGo, List.getD_cons_zero, List.length_take]
        omega
      | succ j =>
        simp only [chunksGo, List.getD_cons_succ, List.length_cons] at *
        exact ih _ _ hlen (by omega)

theorem chunksGo_map {α β : Type} (B : Nat) (f : α → β) :
    ∀ (fuel : Nat) (l : List α),
      chunksGo B fuel (l.map f) = (chunksGo B fuel l).map (List.map f) := by
  intro fuel
  induction fuel with
  | zero => intro l; rw [chunksGo_zero, chunksGo_zero]; rfl
  | succ n ih =>
    intro l
    cases l with
    | nil => rfl
    | cons a t =>
      simp only [List.map_cons, chunksGo, List.map_take, List.map_drop, ← ih,
        List.map_cons]

/-- C6: for every sequence of N items and every positive batch size B, the
slicing loop used by `batch_texts` and `dataframe_to_markdown_tables` yields
ceil(N/B) batches whose in-order concatenation is the original sequence
(so they are contiguous and in input order), each batch of size B except
possibly a smaller (but non-empty) last one; `batch_texts` renders exactly
those batches joined by single spaces. -/
theorem c6_batching (α : Type) (l : List α) (B : Nat) (hB : 1 ≤ B) :
    (chunks l B).length = (l.length + B - 1) / B
    ∧ (chunks l B).flatten = l
    ∧ (∀ c ∈ chunks l B, 1 ≤ c.length ∧ c.length ≤ B)
    ∧ (∀ i, i + 1 < (chunks l B).length → ((chunks l B).getD i []).length = B)
    ∧ (∀ texts : List String, batch_texts texts B
        = (chunks texts B).map (fun b => String.intercalate " " b)) := by
  refine ⟨?_, ?_, ?_, ?_, fun _ => rfl⟩
  · exact chunksGo_length B hB l.length l (Nat.le_refl _)
  · exact chunksGo_join B hB l.length l (Nat.le_refl _)
  · exact fun c hc => chunksGo_mem_length B hB l.length l c hc
  · exact fun i hi => chunksGo_get_length B hB l.length l i (Nat.le_refl _) hi

/-- Witness for C6 at a concrete input: 5 items, batch size 2. -/
theorem c6_batching_witness :
    (chunks [0, 1, 2, 3, 4] 2).length = (5 + 2 - 1) / 2
    ∧ (chunks [0, 1, 2, 3, 4] 2).flatten = [0, 1, 2, 3, 4] :=
  ⟨(c6_batching Nat [0, 1, 2, 3, 4] 2 (by decide)).1,
   (c6_batching Nat [0, 1, 2, 3, 4] 2 (by decide)).2.1⟩

/-- C9: filtering out rows with invalid text never changes the relative
order of the remaining rows: the output of `filter_invalid_text` is an
ordered subsequence of the input, and it keeps exactly the rows whose text
cell passes `is_valid_text` (with NaN cells invalid). -/
theorem c9_filter_preserves_order (α : Type) (textOf : α → Option String)
    (df : List α) :
    (filter_invalid_text textOf df).Sublist df
    ∧ (∀ r, r ∈ filter_invalid_text textOf df
        ↔ r ∈ df ∧ is_valid_cell (textOf r) = true) := by
  constructor
  · exact List.filter_sublist df
  · intro r
    simp [filter_invalid_text, List.mem_filter]

/-! ### Unique IDs (`generate_unique_ids` in `clustering_workflow.py`)

The source assigns `df["unique_id"] = [f"ID{i:06d}" for i in range(1, len(df) + 1)]`.
Python's `%06d` renders the decimal digits of `i` left-padded with zeros to a
minimum width of six — wider numbers keep all their digits. -/

def decDigitsAux : Nat → Nat → List Char
  | 0, _ => []
  | fuel + 1, n =>
    if n = 0 then [] else decDigitsAux fuel (n / 10) ++ [Nat.digitChar (n % 10)]

/-- Decimal digit characters of `n`, most significant first. -/
def decimalRepr (n : Nat) : List Char :=
  if n = 0 then ['0'] else decDigitsAux n n

/-- Model of Python `f"%06d" % n`: decimal digits left-padded with `'0'` to a
minimum width of six. -/
def zeroPad6 (n : Nat) : String :=
  String.mk (List.replicate (6 - (decimalRepr n).length) '0' ++ decimalRepr n)

/-- The id string `f"ID{i:06d}"`. -/
def unique_id_of (i : Nat) : String :=
  "ID" ++ zeroPad6 i

/-- The id column `[f"ID{i:06d}" for i in range(1, n + 1)]`. -/
def unique_ids (n : Nat) : List String :=
  (List.range n).map (fun k => unique_id_of (k + 1))

/-- Embedding of `generate_unique_ids`: each row paired with its id, in row
order. -/
def generate_unique_ids {α : Type} (df : List α) : List (α × String) :=
  df.zip (unique_ids df.length)

/-- Numeric value of a decimal digit string (how `%06d` output reads back). -/
def decValue (l : List Char) : Nat :=
  l.foldl (fun acc c => 10 * acc + (c.toNat - 48)) 0

theorem digitChar_toNat {d : Nat} (hd : d < 10) :
    (Nat.digitChar d).toNat = 48 + d := by
  interval_cases d <;> decide

theorem decValue_append_digit (l : List Char) (c : Char) :
    decValue (l ++ [c]) = 10 * decValue l + (c.toNat - 48) := by
  simp [decValue, List.foldl_append]

theorem decDigitsAux_value :
    ∀ (fuel n : Nat), n ≤ fuel → decValue (decDigitsAux fuel n) = n := by
  intro fuel
  induction fuel with
  | zero =>
    intro n hn
    have : n = 0 := Nat.le_zero.mp hn
    subst this; rfl
  | succ f ih =>
    intro n hn
    by_cases h0 : n = 0
    · subst h0; simp [decDigitsAux, decValue]
    · have hdiv : n / 10 ≤ f := by
        have hlt : n / 10 < n := Nat.div_lt_self (Nat.pos_of_ne_zero h0) (by omega)
        omega
      simp only [decDigitsAux, h0, if_false, decValue_append_digit, ih _ hdiv,
        digitChar_toNat (Nat.mod_lt n (by omega))]
      omega

theorem decValue_decimalRepr (n : Nat) : decValue (decimalRepr n) = n := by
  by_cases h0 : n = 0
  · subst h0; rfl
  · simp only [decimalRepr, h0, if_false]
    exact decDigitsAux_value n n (Nat.le_refl n)

theorem decValue_pad_zero (k : Nat) (l : List Char) :
    decValue (List.replicate k '0' ++ l) = decValue l := by
  induction k with
  | zero => rfl
  | succ m ih =>
    simp only [List.replicate_succ, List.cons_append]
    show decValue (List.replicate m '0' ++ l) = decValue l
    exact ih

theorem zeroPad6_injective : Function.Injective zeroPad6 := by
  intro a b h
  have hdata : (zeroPad6 a).data = (zeroPad6 b).data := by rw [h]
  simp only [zeroPad6] at hdata
  have hva := decValue_pad_zero (6 - (decimalRepr a).length) (decimalRepr a)
  have hvb := decValue_pad_zero (6 - (decimalRepr b).length) (decimalRepr b)
  have : decValue (List.replicate (6 - (decimalRepr a).length) '0' ++ decimalRepr a)
      = decValue (List.replicate (6 - (decimalRepr b).length) '0' ++ decimalRepr b) := by
    rw [hdata]
  rw [hva, hvb, decValue_decimalRepr, decValue_decimalRepr] at this
  exact this

theorem unique_id_of_injective : Function.Injective unique_id_of := by
  intro a b h
  have hdata : ("ID".data ++ (zeroPad6 a).data) = ("ID".data ++ (zeroPad6 b).data) := by
    have := congrArg String.data h
    simpa [unique_id_of, String.data_append] using this
  have : (zeroPad6 a).data = (zeroPad6 b).data :=
    List.append_cancel_left hdata
  exact zeroPad6_injective (String.ext this)

theorem decDigitsAux_length_le :
    ∀ (fuel n k : Nat), n ≤ fuel → n < 10 ^ k →
      (decDigitsAux fuel n).length ≤ k := by
  intro fuel
  induction fuel with
  | zero => intro n k _ _; simp [decDigitsAux]
  | succ f ih =>
    intro n k hn hk
    by_cases h0 : n = 0
    · subst h0; simp [decDigitsAux]
    · cases k with
      | zero =>
        exfalso
        simp only [pow_zero] at hk
        omega
      | succ j =>
        have hdiv : n / 10 ≤ f := by
          have hlt : n / 10 < n := Nat.div_lt_self (Nat.pos_of_ne_zero h0) (by omega)
          omega
        have hdivlt : n / 10 < 10 ^ j := by
          rw [Nat.div_lt_iff_lt_mul (by omega)]
          calc n < 10 ^ (j + 1) := hk
            _ = 10 ^ j * 10 := by ring
        simp only [decDigitsAux, h0, if_false, List.length_append,
          List.length_singleton]
        have := ih (n / 10) j hdiv hdivlt
        omega

theorem decimalRepr_length_le_six {n : Nat} (hn : n ≤ 999999) :
    (decimalRepr n).length ≤ 6 := by
  by_cases h0 : n = 0
  · subst h0; simp [decimalRepr]
  · simp only [decimalRepr, h0, if_false]
    exact decDigitsAux_length_le n n 6 (Nat.le_refl n) (by omega)

theorem decimalRepr_length_pos (n : Nat) : 1 ≤ (decimalRepr n).length := by
  by_cases h0 : n = 0
  · subst h0; simp [decimalRepr]
  · simp only [decimalRepr, h0, if_false]
    cases hn : decDigitsAux n n with
    | nil =>
      exfalso
      have := decDigitsAux_value n n (Nat.le_refl n)
      rw [hn] at this
      exact h0 (by simpa [decValue] using this.symm)
    | cons c t => simp

theorem unique_id_length_eight {i : Nat} (hi : i ≤ 999999) :
    (unique_id_of i).length = 8 := by
  have h6 : (zeroPad6 i).length = 6 := by
    have hle := decimalRepr_length_le_six hi
    simp only [zeroPad6, String.length, List.length_append, List.length_replicate]
    omega
  simp only [unique_id_of, String.length_append, h6]
  decide

/-- C7 (amended): `generate_unique_ids` pairs the rows, in their original
order, with ids `"ID"` followed by the decimal counter `k + 1` zero-padded to
a minimum width of six digits; the counters run 1..N with no gaps, the ids
are pairwise distinct, and when N ≤ 999999 every id is exactly `"ID"` plus
six digits (length 8). -/
theorem c7_unique_ids (α : Type) (df : List α) :
    (generate_unique_ids df).map Prod.fst = df
    ∧ (generate_unique_ids df).map Prod.snd = unique_ids df.length
    ∧ (∀ k, k < df.length → (unique_ids df.length).getD k "" = unique_id_of (k + 1))
    ∧ (unique_ids df.length).Nodup
    ∧ (df.length ≤ 999999 → ∀ id ∈ unique_ids df.length, id.length = 8) := by
  have hlen : (unique_ids df.length).length = df.length := by
    simp [unique_ids]
  refine ⟨?_, ?_, ?_, ?_, ?_⟩
  · exact List.map_fst_zip df _ (by omega)
  · exact List.map_snd_zip df _ (by omega)
  · intro k hk
    have : (unique_ids df.length)[k]? = some (unique_id_of (k + 1)) := by
      simp [unique_ids, List.getElem?_map, List.getElem?_range, hk]
    simp [List.getD, this]
  · apply List.Nodup.map
    · intro a b hab
      have := unique_id_of_injective hab
      omega
    · exact List.nodup_range _
  · intro hN id hid
    simp only [unique_ids, List.mem_map] at hid
    obtain ⟨k, hk, rfl⟩ := hid
    have hk' : k < df.length := List.mem_range.mp hk
    exact unique_id_length_eight (by omega)

/-- Witness for C7 (amended) at a concrete three-row input. -/
theorem c7_unique_ids_witness :
    (unique_ids 3).getD 1 "" = unique_id_of 2
    ∧ (unique_ids 3).Nodup
    ∧ ("ID000002" : String).length = 8 :=
  ⟨(c7_unique_ids String ["a", "b", "c"]).2.2.1 1 (by decide),
   (c7_unique_ids String ["a", "b", "c"]).2.2.2.1,
   (c7_unique_ids String ["a", "b", "c"]).2.2.2.2 (by decide) "ID000002" (by decide)⟩

theorem decDigitsAux_zero_input (f : Nat) : decDigitsAux f 0 = [] := by
  cases f <;> simp [decDigitsAux]

theorem decDigitsAux_congr :
    ∀ (f1 n : Nat), n < 10 ^ f1 → ∀ (f2 : Nat), n < 10 ^ f2 →
      decDigitsAux f1 n = decDigitsAux f2 n := by
  intro f1
  induction f1 with
  | zero =>
    intro n hn f2 _
    have : n = 0 := by simpa using Nat.lt_one_iff.mp (by simpa using hn)
    subst this
    rw [decDigitsAux_zero_input, decDigitsAux_zero_input]
  | succ a ih =>
    intro n hn f2 hn2
    by_cases h0 : n = 0
    · subst h0; rw [decDigitsAux_zero_input, decDigitsAux_zero_input]
    · cases f2 with
      | zero =>
        exfalso
        have : n = 0 := Nat.lt_one_iff.mp (by simpa using hn2)
        exact h0 this
      | succ b =>
        have hda : n / 10 < 10 ^ a := by
          rw [Nat.div_lt_iff_lt_mul (by omega)]
          calc n < 10 ^ (a + 1) := hn
            _ = 10 ^ a * 10 := by ring
        have hdb : n / 10 < 10 ^ b := by
          rw [Nat.div_lt_iff_lt_mul (by omega)]
          calc n < 10 ^ (b + 1) := hn2
            _ = 10 ^ b * 10 := by ring
        simp only [decDigitsAux, h0, if_false, ih (n / 10) hda b hdb]

theorem decimalRepr_million :
    decimalRepr 1000000 = ['1', '0', '0', '0', '0', '0', '0'] := by
  have h := decDigitsAux_congr 1000000 1000000
    (Nat.lt_pow_self (show (1:Nat) < 10 by omega) 1000000) 7 (by norm_num)
  simp only [decimalRepr, if_neg (show ¬(1000000 = 0) by omega)]
  rw [h]
  decide

theorem unique_id_of_million : unique_id_of 1000000 = "ID1000000" := by
  simp only [unique_id_of, zeroPad6, decimalRepr_million]
  decide

/-- C7 counterexample: on a DataFrame with 1000000 rows the id of the last
row is `"ID1000000"`, which has nine characters, not the eight of
`"ID"` plus a six-digit zero-padded counter — so the ids are *minimum*-width
six, not exactly six digits, for N ≥ 10^6. -/
theorem c7_counterexample :
    (unique_ids 1000000).getD 999999 "" = "ID1000000"
    ∧ ("ID1000000" : String).length = 9
    ∧ ¬ ("ID1000000" : String).length = 8 := by
  refine ⟨?_, by decide, by decide⟩
  have h : (unique_ids 1000000)[999999]? = some (unique_id_of 1000000) := by
    simp [unique_ids, List.getElem?_map, List.getElem?_range]
  simp only [List.getD, List.get?_eq_getElem?, h, unique_id_of_million,
    Option.getD_some]

/-! ### Translation (`frontend/page/ai_translation.py`)

`Translator.translate` is an external model call that either returns a
translation or raises; it is embedded as a function `String → Except String
String` from input text to outcome.  The paired `Nat` below counts how many
times the model was invoked (0 or 1), replacing the spec's mock call-count
assertion. -/

/-- Embedding of `contains_chinese`: for a `str`, true iff the text is
non-empty and at least half its characters are CJK.  The Python float test
`len(chinese_chars) / len(text) >= 0.5` is exact for these magnitudes, so it
is modelled as `len ≤ 2 * count`. -/
def contains_chinese (text : String) : Bool :=
  if text.isEmpty then false
  else decide (text.toList.length ≤ 2 * text.toList.countP isCJK)

/-- Embedding of `translate_text` (the single-text entry point): its
`try/except` catches any error from `translator.translate` and returns the
inline marker `"翻译错误: " ++ e` instead of re-raising.  Second component:
number of model invocations. -/
def translate_text (model : String → Except String String) (text : String) :
    String × Nat :=
  if contains_chinese text then (text, 0)
  else
    match model text with
    | Except.ok t => (t, 1)
    | Except.error e => ("翻译错误: " ++ e, 1)

/-- Embedding of the inner `translate_with_semaphore` of `batch_translate`:
no `try/except` — a model error propagates.  Second component: number of
model invocations. -/
def translate_with_semaphore (model : String → Except String String)
    (text : String) : Except String String × Nat :=
  if contains_chinese text then (Except.ok text, 0)
  else (model text, 1)

/-- `asyncio.gather` without `return_exceptions`: if every task succeeds it
returns the list of results in task order; if any task raises, the gather
call itself raises (modelled as the first error in task order — which
failure is surfaced is timing-dependent in Python, but some failure always
propagates). -/
def gather : List (Except String String) → Except String (List String)
  | [] => Except.ok []
  | Except.error e :: _ => Except.error e
  | Except.ok x :: rest => (gather rest).map (fun l => x :: l)

/-- Embedding of `batch_translate`, the entry point used for CSV uploads:
semaphore-bounded tasks, one per text, gathered.  Second component: total
model invocations. -/
def batch_translate (model : String → Except String String)
    (texts : List String) : Except String (List String) × Nat :=
  let rs := texts.map (translate_with_semaphore model)
  (gather (rs.map Prod.fst), (rs.map Prod.snd).sum)

/-- C5: for every non-empty input whose CJK fraction is at least one half,
both the batch-item path (`translate_with_semaphore`) and the single-text
path (`translate_text`) return the input unchanged with zero model
invocations, for every model. -/
theorem c5_cjk_skip (model : String → Except String String) (text : String)
    (hne : text.isEmpty = false)
    (hfrac : text.toList.length ≤ 2 * text.toList.countP isCJK) :
    translate_with_semaphore model text = (Except.ok text, 0)
    ∧ translate_text model text = (text, 0) := by
  have hcc : contains_chinese text = true := by
    simp only [contains_chinese, hne, Bool.false_eq_true, if_false,
      decide_eq_true_eq]
    exact hfrac
  constructor
  · simp [translate_with_semaphore, hcc]
  · simp [translate_text, hcc]

/-- Witness for C5 on the concrete half-CJK text `"中a"` and a model that
would fail if it were ever invoked. -/
theorem c5_cjk_skip_witness :
    translate_with_semaphore (fun _ => Except.error "boom") "中a"
      = (Except.ok "中a", 0)
    ∧ translate_text (fun _ => Except.error "boom") "中a" = ("中a", 0) :=
  c5_cjk_skip (fun _ => Except.error "boom") "中a" (by decide) (by decide)

theorem gather_ok_of_mem {l : List (Except String String)} {res : List String}
    (h : gather l = Except.ok res) : ∀ x ∈ l, x.isOk = true := by
  induction l generalizing res with
  | nil => intro x hx; simp at hx
  | cons a t ih =>
    intro x hx
    cases a with
    | error e => simp [gather] at h
    | ok v =>
      cases hr : gather t with
      | error e => rw [gather, hr] at h; simp [Except.map] at h
      | ok l' =>
        rcases List.mem_cons.mp hx with rfl | hx'
        · rfl
        · exact ih hr x hx'

/-- C2 counterexample: with a model that always raises, the batch/CSV entry
point `batch_translate` on the single-item batch `["hello"]` propagates the
error out of `asyncio.gather` — it does not return a result list with an
inline error string in that item's position, contradicting the claim. -/
theorem c2_counterexample :
    (batch_translate (fun _ => Except.error "boom") ["hello"]).1
      = Except.error "boom"
    ∧ (batch_translate (fun _ => Except.error "boom") ["hello"]).1
      ≠ Except.ok ["翻译错误: boom"]
    ∧ translate_text (fun _ => Except.error "boom") "hello"
      = ("翻译错误: boom", 1) :=
  ⟨rfl, fun h => Except.noConfusion h, by decide⟩

/-- C2 (amended): the catch-and-inline behaviour belongs to the single-text
entry point `translate_text`, which replaces a failure with the inline
marker string and does not re-raise; in the batch/CSV entry point
`batch_translate` an item failure is NOT caught — whenever any non-CJK item's
translation fails, the whole gather returns an error, never a result
list. -/
theorem c2_batch_failure (model : String → Except String String) :
    (∀ (text e : String),
      contains_chinese text = false → model text = Except.error e →
      translate_text model text = ("翻译错误: " ++ e, 1))
    ∧ (∀ (texts : List String) (text e : String),
      text ∈ texts → contains_chinese text = false →
      model text = Except.error e →
      ∀ res, (batch_translate model texts).1 ≠ Except.ok res) := by
  constructor
  · intro text e hcc herr
    simp [translate_text, hcc, herr]
  · intro texts text e htm hcc herr res hok
    have hx : Except.error (ε := String) (α := String) e
        ∈ (texts.map (translate_with_semaphore model)).map Prod.fst := by
      have : (translate_with_semaphore model text).1 = Except.error e := by
        simp [translate_with_semaphore, hcc, herr]
      refine List.mem_map.mpr ⟨translate_with_semaphore model text, ?_, this⟩
      exact List.mem_map.mpr ⟨text, htm, rfl⟩
    have := gather_ok_of_mem hok _ hx
    simp [Except.isOk, Except.toBool] at this

/-- Witness for C2 (amended) at a concrete failing model and batch. -/
theorem c2_batch_failure_witness :
    translate_text (fun _ => Except.error "x") "hi" = ("翻译错误: x", 1)
    ∧ (batch_translate (fun _ => Except.error "x") ["hi"]).1
        ≠ Except.ok ["翻译错误: x"] :=
  ⟨(c2_batch_failure (fun _ => Except.error "x")).1 "hi" "x" (by decide) rfl,
   (c2_batch_failure (fun _ => Except.error "x")).2 ["hi"] "hi" "x"
     (by decide) (by decide) rfl ["翻译错误: x"]⟩

/-! ### Structured LLM Invoker (`LanguageModelChain.__init__` in `utils/llm_tools.py`) -/

/-- A Python value as seen by the `isinstance(..., str)` checks: a string or
some non-string value. -/
inductive PyVal : Type
  | str (s : String)
  | nonStr (tag : String)
deriving DecidableEq

/-- `isinstance(v, str)`. -/
def PyVal.isStr : PyVal → Bool
  | PyVal.str _ => true
  | PyVal.nonStr _ => false

/-- Embedding of the validation performed by `LanguageModelChain.__init__`:
`issubclass(model_cls, BaseModel)`, `isinstance(sys_msg, str) and
isinstance(user_msg, str)`, and `hasattr(model, "invoke")`, in that order;
each failure raises `ValueError`.  No check inspects the *content* of the
message strings. -/
def languageModelChainInit (modelClsIsBaseModel : Bool)
    (sys_msg user_msg : PyVal) (modelHasInvoke : Bool) :
    Except String Unit :=
  if !modelClsIsBaseModel then
    Except.error "model_cls must be a subclass of Pydantic BaseModel"
  else if !(sys_msg.isStr && user_msg.isStr) then
    Except.error "sys_msg and user_msg must be strings"
  else if !modelHasInvoke then
    Except.error "model must be a LangChain Runnable object (must have invoke method)"
  else Except.ok ()

/-- C8 counterexample: construction succeeds with an *empty* system-message
template (and likewise an empty user template) — an empty template string is
NOT rejected at build time, contradicting the claim. -/
theorem c8_counterexample :
    languageModelChainInit true (PyVal.str "") (PyVal.str "") true
      = Except.ok () := rfl

/-- C8 (amended): `__init__` validates only that the schema class is a
Pydantic `BaseModel` subclass, that both message templates are `str`
instances (possibly empty — non-emptiness is not checked), and that the
model object has an `invoke` attribute; it raises exactly when one of these
fails. -/
theorem c8_init_validation (modelClsIsBaseModel : Bool)
    (sys_msg user_msg : PyVal) (modelHasInvoke : Bool) :
    (languageModelChainInit modelClsIsBaseModel sys_msg user_msg modelHasInvoke
        = Except.ok ())
    ↔ (modelClsIsBaseModel && sys_msg.isStr && user_msg.isStr
        && modelHasInvoke) = true := by
  cases modelClsIsBaseModel <;> cases sys_msg <;> cases user_msg
    <;> cases modelHasInvoke <;> simp [languageModelChainInit, PyVal.isStr]

/-! ### C1: properties of `is_valid_text` -/

theorem toList_mk (l : List Char) : (String.mk l).toList = l := rfl

theorem infix_dropWhile_of_not {p : Char → Bool} :
    ∀ {l mid : List Char}, mid <:+: l → mid ≠ [] →
      (∀ c ∈ mid, p c = false) → mid <:+: l.dropWhile p := by
  intro l
  induction l with
  | nil =>
    intro mid h hne _
    exact absurd (List.sublist_nil.mp h.sublist) hne
  | cons a t ih =>
    intro mid h hne hnp
    by_cases hpa : p a = true
    · rw [List.dropWhile_cons, if_pos hpa]
      have hinf : mid <:+: t := by
        rcases List.infix_cons_iff.mp h with hpre | hinf
        · exfalso
          cases mid with
          | nil => exact hne rfl
          | cons m ms =>
            rcases List.cons_prefix_cons.mp hpre with ⟨heq, _⟩
            have hm := hnp m (List.mem_cons_self _ _)
            rw [heq] at hm
            rw [hm] at hpa
            exact Bool.false_ne_true hpa
        · exact hinf
      exact ih hinf hne hnp
    · rw [List.dropWhile_cons, if_neg hpa]
      exact h

theorem infix_pyStripL {l mid : List Char} (h : mid <:+: l) (hne : mid ≠ [])
    (hnp : ∀ c ∈ mid, isPySpace c = false) : mid <:+: pyStripL l := by
  unfold pyStripL
  have h1 : mid <:+: l.dropWhile isPySpace := infix_dropWhile_of_not h hne hnp
  have h2 : mid.reverse <:+: (l.dropWhile isPySpace).reverse := h1.reverse
  have hne' : mid.reverse ≠ [] := by simpa using hne
  have hnp' : ∀ c ∈ mid.reverse, isPySpace c = false := fun c hc =>
    hnp c (List.mem_reverse.mp hc)
  have h3 := (infix_dropWhile_of_not h2 hne' hnp').reverse
  simpa using h3

theorem isPySpace_eq_false_of_alnum {c : Char} (h : isAlnumU c = true) :
    isPySpace c = false := by
  by_contra hcon
  have hs : isPySpace c = true := by
    revert hcon; cases isPySpace c <;> simp
  simp only [isPySpace, Bool.or_eq_true, decide_eq_true_eq] at hs
  have hc : c = ' ' ∨ c = '\t' ∨ c = '\n' ∨ c = '\r' ∨ c = '\x0b'
      ∨ c = '\x0c' ∨ c = '\x1c' ∨ c = '\x1d' ∨ c = '\x1e' ∨ c = '\x1f' := by
    tauto
  rcases hc with rfl | rfl | rfl | rfl | rfl | rfl | rfl | rfl | rfl | rfl <;>
    exact absurd h (by decide)

theorem isPyPunct_eq_false_of_alnum {c : Char} (h : isAlnumU c = true) :
    isPyPunct c = false := by
  by_contra hcon
  have hs : isPyPunct c = true := by
    revert hcon; cases isPyPunct c <;> simp
  have hmem : c ∈ ['!', '"', '#', '%', '&', '\'', '(', ')', '*', ',', '-',
      '.', '/', ':', ';', '?', '@', '[', '\\', ']', '_', '\x7b', '\x7d'] := by
    simpa [isPyPunct] using hs
  fin_cases hmem <;> exact absurd h (by decide)

/-- `no two adjacent characters equal` for a character list. -/
def adjacentDistinct : List Char → Bool
  | [] => true
  | [_] => true
  | a :: b :: t => !(a = b : Bool) && adjacentDistinct (b :: t)

theorem runCount_cons_le (a : Char) (l : List Char) :
    runCount l ≤ runCount (a :: l) := by
  cases l with
  | nil => simp [runCount]
  | cons b t =>
    show runCount (b :: t) ≤ (if a = b then 0 else 1) + runCount (b :: t)
    omega

theorem runCount_le_append_right (l2 : List Char) :
    ∀ l1, runCount l1 ≤ runCount (l1 ++ l2) := by
  intro l1
  induction l1 with
  | nil => simp [runCount]
  | cons a t ih =>
    cases t with
    | nil =>
      show runCount [a] ≤ runCount (a :: l2)
      cases l2 with
      | nil => simp
      | cons b u =>
        show 1 ≤ (if a = b then 0 else 1) + runCount (b :: u)
        have h1 : 1 ≤ runCount (b :: u) := by
          clear ih
          induction u generalizing b with
          | nil => simp [runCount]
          | cons x xs ihx =>
            show 1 ≤ (if b = x then 0 else 1) + runCount (x :: xs)
            have := ihx x
            omega
        omega
    | cons b u =>
      show (if a = b then 0 else 1) + runCount (b :: u)
          ≤ (if a = b then 0 else 1) + runCount ((b :: u) ++ l2)
      have := ih
      simp only [List.cons_append] at this ⊢
      omega

theorem runCount_le_append_left (l1 l2 : List Char) :
    runCount l2 ≤ runCount (l1 ++ l2) := by
  induction l1 with
  | nil => simp
  | cons a t ih =>
    calc runCount l2 ≤ runCount (t ++ l2) := ih
      _ ≤ runCount (a :: (t ++ l2)) := runCount_cons_le a _
      _ = runCount ((a :: t) ++ l2) := by simp

theorem runCount_of_adjacentDistinct :
    ∀ l : List Char, adjacentDistinct l = true → runCount l = l.length := by
  intro l
  induction l with
  | nil => intro _; rfl
  | cons a t ih =>
    intro h
    cases t with
    | nil => rfl
    | cons b u =>
      simp only [adjacentDistinct, Bool.and_eq_true, Bool.not_eq_true',
        decide_eq_false_iff_not] at h
      have hr := ih h.2
      show (if a = b then 0 else 1) + runCount (b :: u) = (a :: b :: u).length
      rw [if_neg h.1, hr]
      simp [List.length_cons]
      omega

/-- C1 (amended): `is_valid_text` is false on every string that is purely
one repeated character; and, for ASCII strings — the domain on which the
character-class embedding (whitespace, punctuation, digits, letters) is
exactly Python's — it is true on every string whose stripped text is not
purely numeric (`str.isdigit`) and which contains a contiguous alphanumeric
segment with no two adjacent characters equal and at least FOUR distinct
characters (three do not suffice: the at-most-three-runs regex rejects
them, see the counterexample). -/
theorem c1_is_valid_text :
    (∀ (c : Char) (n : Nat), 1 ≤ n →
      is_valid_text (String.mk (List.replicate n c)) = false)
    ∧ (∀ (s : String) (mid : List Char),
      (∀ c ∈ s.toList, c.toNat < 128) →
      mid <:+: s.toList →
      (∀ c ∈ mid, isAlnumU c = true) →
      adjacentDistinct mid = true →
      4 ≤ mid.dedup.length →
      isDigitStr (pyStripL s.toList) = false →
      is_valid_text s = true) := by
  constructor
  · intro c n hn
    by_cases hsp : isPySpace c = true
    · have hd : ∀ m, List.dropWhile isPySpace (List.replicate m c) = [] := by
        intro m
        induction m with
        | zero => rfl
        | succ k ihk =>
          rw [List.replicate_succ, List.dropWhile_cons, if_pos hsp]
          exact ihk
      have hstrip : pyStripL (List.replicate n c) = [] := by
        unfold pyStripL
        rw [hd n]
        rfl
      simp [is_valid_text, toList_mk, hstrip]
    · have hpsp : isPySpace c = false := by
        revert hsp; cases isPySpace c <;> simp
      have hd : ∀ m, 1 ≤ m →
          List.dropWhile isPySpace (List.replicate m c) = List.replicate m c := by
        intro m hm
        cases m with
        | zero => omega
        | succ k =>
          rw [List.replicate_succ, List.dropWhile_cons, if_neg (by simp [hpsp])]
      have hstrip : pyStripL (List.replicate n c) = List.replicate n c := by
        unfold pyStripL
        rw [hd n hn, List.reverse_replicate, hd n hn, List.reverse_replicate]
      have hded : (List.replicate n c).dedup = [c] :=
        List.replicate_dedup (by omega)
      simp [is_valid_text, toList_mk, hstrip, hded]
  · intro s mid _hascii hmid halnum hadj hdist hdig
    have hmidne : mid ≠ [] := by
      intro h; rw [h] at hdist; simp at hdist
    have hnospace : ∀ c ∈ mid, isPySpace c = false := fun c hc =>
      isPySpace_eq_false_of_alnum (halnum c hc)
    set t := pyStripL s.toList with ht
    have hinf : mid <:+: t := infix_pyStripL hmid hmidne hnospace
    obtain ⟨c0, hc0⟩ : ∃ c, c ∈ mid := by
      cases mid with
      | nil => exact absurd rfl hmidne
      | cons x xs => exact ⟨x, List.mem_cons_self _ _⟩
    have hc0t : c0 ∈ t := hinf.sublist.subset hc0
    have hc0a : isAlnumU c0 = true := halnum c0 hc0
    have htne : t ≠ [] := List.ne_nil_of_mem hc0t
    have hmidlen : 4 ≤ mid.length :=
      le_trans hdist (List.Sublist.length_le (List.dedup_sublist mid))
    have hrun : 4 ≤ runCount t := by
      obtain ⟨u, v, huv⟩ := hinf
      have h1 : runCount mid ≤ runCount (mid ++ v) := runCount_le_append_right v mid
      have h2 : runCount (mid ++ v) ≤ runCount (u ++ (mid ++ v)) :=
        runCount_le_append_left u _
      have h3 : u ++ (mid ++ v) = t := by rw [← List.append_assoc]; exact huv
      rw [runCount_of_adjacentDistinct mid hadj] at h1
      rw [h3] at h2
      omega
    have hdedt : 4 ≤ t.dedup.length := by
      have hsubf : mid.toFinset ⊆ t.toFinset := by
        intro x hx
        rw [List.mem_toFinset] at hx ⊢
        exact hinf.sublist.subset hx
      have hcard := Finset.card_le_card hsubf
      rw [List.card_toFinset, List.card_toFinset] at hcard
      omega
    have e1 : t.isEmpty = false := by
      cases hcase : t with
      | nil => exact absurd hcase htne
      | cons x xs => rfl
    have e2 : t.all (fun c => isPySpace c || isPyPunct c) = false := by
      rw [Bool.eq_false_iff]
      intro hall
      have := List.all_eq_true.mp hall c0 hc0t
      rw [isPySpace_eq_false_of_alnum hc0a, isPyPunct_eq_false_of_alnum hc0a] at this
      exact Bool.false_ne_true (by simpa using this)
    have e4 : (t.dedup.length == 1) = false := by
      rw [Bool.eq_false_iff]
      intro hbe
      have hne1 : t.dedup.length = 1 := by simpa using hbe
      omega
    have e5 : matchesRepeatGroups t = false := by
      rw [matchesRepeatGroups]
      have hdec : decide (runCount t ≤ 3) = false := decide_eq_false (by omega)
      rw [hdec]
      simp
    have e6 : (!(t.any isAlnumU)) = false := by
      have : t.any isAlnumU = true := List.any_eq_true.mpr ⟨c0, hc0t, hc0a⟩
      rw [this]
      rfl
    show is_valid_text s = true
    simp only [is_valid_text]
    rw [← ht]
    rw [e1, e2, hdig, e4, e5, e6]
    rfl

/-- C1 counterexample: `"abc"` is itself a non-repeating alphanumeric
sequence of three distinct characters (so the claim asserts
`is_valid_text "abc" = true`), but the function returns false: the regex
`^(.)\1*(?:(.)\2*){0,2}$` matches any string of at most three
equal-character runs, including `"abc"`. -/
theorem c1_counterexample :
    1 ≤ ("abc" : String).length
    ∧ ("abc" : String).toList.all isAlnumU = true
    ∧ adjacentDistinct ("abc" : String).toList = true
    ∧ ("abc" : String).toList.dedup.length = 3
    ∧ is_valid_text "abc" = false :=
  ⟨by decide, by decide, by decide, by decide, by decide⟩

/-- Witness for C1 (amended): a pure repetition is invalid; a four-distinct
alphanumeric string is valid. -/
theorem c1_is_valid_text_witness :
    is_valid_text (String.mk (List.replicate 4 'a')) = false
    ∧ is_valid_text "abcd" = true :=
  ⟨c1_is_valid_text.1 'a' 4 (by omega),
   c1_is_valid_text.2 "abcd" ("abcd" : String).toList (by decide)
     (List.infix_rfl) (by decide) (by decide) (by decide) (by decide)⟩

/-! ### Markdown tables (`dataframe_to_markdown_tables` in `utils/text_utils.py`)

A DataFrame restricted to the selected columns is a list of rows, each row
a list of cells; `none` models NaN.  The function first runs
`df.dropna(subset=cols, how=nan_drop_method)` (default `"any"`), then
replaces newlines by spaces in the string cells, then renders the slices of
size `rows_per_table` as markdown strings. -/

/-- Model of `.str.replace("\r\n|\n", " ", regex=True)`: the regex scans
left to right, turning each `"\r\n"` pair, and each remaining lone `"\n"`,
into one space. -/
def replaceNewlines : List Char → List Char
  | [] => []
  | '\r' :: '\n' :: rest => ' ' :: replaceNewlines rest
  | '\n' :: rest => ' ' :: replaceNewlines rest
  | c :: rest => c :: replaceNewlines rest

/-- Newline cleaning on a cell; NaN cells stay NaN. -/
def cleanCell : Option String → Option String
  | none => none
  | some s => some (String.mk (replaceNewlines s.toList))

/-- `df.dropna(subset=cols, how="any")`: keep the rows with no NaN among the
selected columns. -/
def dropna_any (rows : List (List (Option String))) :
    List (List (Option String)) :=
  rows.filter (fun r => r.all Option.isSome)

/-- The per-table row groups: cleaned surviving rows, sliced into groups of
`rows_per_table`. -/
def table_row_groups (rows : List (List (Option String)))
    (rows_per_table : Nat) : List (List (List (Option String))) :=
  chunks ((dropna_any rows).map (fun r => r.map cleanCell)) rows_per_table

/-- One markdown line: `"| "` + cells joined by `" | "` + `" |\n"`. -/
def mdLine (cells : List String) : String :=
  "| " ++ String.intercalate " | " cells ++ " |\n"

/-- `str(cell)`: `str(nan)` prints `"nan"`. -/
def renderCell : Option String → String
  | none => "nan"
  | some s => s

/-- One markdown table: header row, separator row of `"---"`, one line per
record. -/
def mdTableOf (cols : List String) (g : List (List (Option String))) :
    String :=
  mdLine cols ++ mdLine (cols.map (fun _ => "---"))
    ++ String.join (g.map (fun r => mdLine (r.map renderCell)))

/-- Embedding of `dataframe_to_markdown_tables` (list output format,
default `nan_drop_method="any"`). -/
def dataframe_to_markdown_tables (rows : List (List (Option String)))
    (cols : List String) (rows_per_table : Nat) : List String :=
  (table_row_groups rows rows_per_table).map (mdTableOf cols)

/-! ### Classification (`classify_single_batch` / `classify_texts` in
`clustering_workflow.py`)

A preprocessed DataFrame row has the generated `unique_id` column and the
text column (NaN-able).  One model call per markdown table either yields the
parsed `result["classifications"]` list or raises; each call is embedded as
an `Except` outcome, listed per table in table order. -/

structure DataRow where
  unique_id : String
  text : Option String
deriving DecidableEq

/-- Modelled from the spec: `ClassificationResult` lives in
`backend/clustering/clustering_core.py`, which is absent from the sources.
Per the spec's data model, a single-label ClassificationRecord carries the
row `id` and one category name. -/
structure SLRecord where
  id : String
  category : String
deriving DecidableEq

/-- Modelled from the spec: in multi-label mode the record carries the row
`id` and a set of category names — parsed from JSON, a list of strings. -/
structure MLRecord where
  id : String
  categories : List String
deriving DecidableEq

/-- Embedding of `classify_single_batch`: `try: return
result["classifications"] except: return []` — any failure contributes an
empty result list. -/
def classify_single_batch {R : Type} (invokeResult : Except String (List R)) :
    List R :=
  match invokeResult with
  | Except.ok l => l
  | Except.error _ => []

/-- The selected-columns projection `[id_column, text_column]` of a row, as
passed to `dataframe_to_markdown_tables`. -/
def rowCells (r : DataRow) : List (Option String) :=
  [some r.unique_id, r.text]

/-- The rows surviving `dropna` inside `dataframe_to_markdown_tables`
(the id cell is always present, so only the text cell matters). -/
def classify_kept (df : List DataRow) : List DataRow :=
  df.filter (fun r => r.text.isSome)

/-- The rows of each markdown table, in table order. -/
def classify_groups (df : List DataRow) (B : Nat) : List (List DataRow) :=
  chunks (classify_kept df) B

/-- Coherence of the two views: mapping each table group of `classify_texts`
through the cell projection and cleaning gives exactly the row groups of
`dataframe_to_markdown_tables` on the projected frame. -/
theorem classify_groups_are_table_row_groups (df : List DataRow) (B : Nat) :
    (classify_groups df B).map (List.map (fun r => (rowCells r).map cleanCell))
      = table_row_groups (df.map rowCells) B := by
  unfold classify_groups table_row_groups chunks
  have h1 : dropna_any (df.map rowCells) = (classify_kept df).map rowCells := by
    unfold dropna_any classify_kept
    rw [List.filter_map]
    apply congrArg (List.map rowCells)
    apply List.filter_congr
    intro r _
    simp [rowCells, Function.comp]
  rw [h1, List.map_map]
  have h4 : ((classify_kept df).map
        ((fun r => List.map cleanCell r) ∘ rowCells)).length
      = (classify_kept df).length := by simp
  rw [h4, chunksGo_map]
  rfl

/-- Embedding of `df.merge(df_classifications, left_on="unique_id",
right_on="id", how="left")`: every left row, in order, paired with each
matching record (or `none` when no record matches). -/
def left_merge {R : Type} (key : R → String) (df : List DataRow)
    (recs : List R) : List (DataRow × Option R) :=
  df.flatMap (fun row =>
    match recs.filter (fun rec => key rec == row.unique_id) with
    | [] => [(row, none)]
    | ms => ms.map (fun m => (row, some m)))

/-- Embedding of `classify_texts` (single-label mode): per-table outcomes
are flattened through `classify_single_batch` (failed batches contribute
`[]`); then `pd.DataFrame(classification_results)` is merged onto the
frame.  When every batch failed, the accumulated list is empty, the
resulting frame has no columns, and `merge(..., right_on="id")` raises
`KeyError: 'id'` — embedded as the error case. -/
def classify_texts_sl (df : List DataRow) (B : Nat)
    (outcomes : List (Except String (List SLRecord))) :
    Except String (List (DataRow × Option SLRecord)) :=
  let flat := (outcomes.map (fun o => classify_single_batch o)).flatten
  if flat.isEmpty then Except.error "KeyError: id"
  else Except.ok (left_merge SLRecord.id df flat)

/-- Width contributed by one merged `categories` cell under
`.apply(pd.Series)`: a list contributes one entry per element; a NaN cell
(unmatched row) gives `pd.Series(nan)`, one entry at index 0. -/
def catWidth : Option (List String) → Nat
  | none => 1
  | some l => l.length

/-- The expanded cells of one merged row under `.apply(pd.Series)` with the
union column index `0 … width-1`: position `j` holds the `j`-th category
name if present, else NaN. -/
def expandRow (width : Nat) : Option (List String) → List (Option String)
  | none => List.replicate width none
  | some l => (List.range width).map (fun j => l.get? j)

/-- The flattened classification results accumulated over all batches. -/
def ml_flat (outcomes : List (Except String (List MLRecord))) :
    List MLRecord :=
  (outcomes.map (fun o => classify_single_batch o)).flatten

/-- The merged frame `df.merge(df_classifications, ...)` of multi-label
mode. -/
def ml_merged (df : List DataRow)
    (outcomes : List (Except String (List MLRecord))) :
    List (DataRow × Option MLRecord) :=
  left_merge MLRecord.id df (ml_flat outcomes)

/-- The width of the expanded block: `.apply(pd.Series)` produces the union
of the per-row indices, `0 … width-1`. -/
def ml_width (df : List DataRow)
    (outcomes : List (Except String (List MLRecord))) : Nat :=
  ((ml_merged df outcomes).map
    (fun p => catWidth (p.2.map MLRecord.categories))).foldr Nat.max 0

/-- Embedding of `classify_texts` (multi-label mode): merge as in
single-label, then `df_result["categories"].apply(pd.Series)` expands the
category lists positionally into integer-labelled columns, and
`.add_prefix("category_")` names them `category_0, category_1, …`.  Returns
the expanded column names and, per row, the row with its expanded cells. -/
def classify_texts_ml (df : List DataRow) (B : Nat)
    (outcomes : List (Except String (List MLRecord))) :
    Except String (List String × List (DataRow × List (Option String))) :=
  if (ml_flat outcomes).isEmpty then Except.error "KeyError: id"
  else
    Except.ok
      ((List.range (ml_width df outcomes)).map
          (fun j => "category_" ++ String.mk (decimalRepr j)),
       (ml_merged df outcomes).map
          (fun p => (p.1, expandRow (ml_width df outcomes)
            (p.2.map MLRecord.categories))))


theorem left_merge_of_no_match {R : Type} (key : R → String)
    (df : List DataRow) (recs : List R) (row : DataRow)
    (hrow : row ∈ df)
    (hnone : ∀ rec ∈ recs, key rec ≠ row.unique_id) :
    (row, (none : Option R)) ∈ left_merge key df recs
    ∧ ∀ rec : R, (row, some rec) ∉ left_merge key df recs := by
  have hfilter : recs.filter (fun rec => key rec == row.unique_id) = [] :=
    List.filter_eq_nil_iff.mpr (fun rec hrec => by
      simp only [beq_iff_eq]
      exact hnone rec hrec)
  constructor
  · apply List.mem_flatMap.mpr
    refine ⟨row, hrow, ?_⟩
    rw [hfilter]
    exact List.mem_singleton.mpr rfl
  · intro rec hmem
    obtain ⟨row', hrow', hpair⟩ := List.mem_flatMap.mp hmem
    cases hf : recs.filter (fun r => key r == row'.unique_id) with
    | nil =>
      rw [hf] at hpair
      have := List.mem_singleton.mp hpair
      exact Option.noConfusion (congrArg Prod.snd this)
    | cons m ms =>
      rw [hf] at hpair
      obtain ⟨m', hm', heq⟩ := List.mem_map.mp hpair
      have hroweq : row' = row := congrArg Prod.fst heq
      have hreceq : m' = rec := Option.some.inj (congrArg Prod.snd heq)
      have hm'' : m' ∈ recs.filter (fun r => key r == row'.unique_id) := by
        rw [hf]; exact hm'
      have hmf := List.mem_filter.mp hm''
      have hkey : key m' = row'.unique_id := by simpa using hmf.2
      exact hnone m' hmf.1 (by rw [hkey, hroweq])

theorem cleanCell_isSome (c : Option String) :
    (cleanCell c).isSome = c.isSome := by
  cases c <;> rfl

theorem mem_cleaned_all_isSome {rows : List (List (Option String))}
    {x : List (Option String)}
    (hx : x ∈ (dropna_any rows).map (fun r => r.map cleanCell)) :
    x.all Option.isSome = true := by
  obtain ⟨r', hr', rfl⟩ := List.mem_map.mp hx
  have hall := (List.mem_filter.mp hr').2
  rw [List.all_map]
  have hcomp : (Option.isSome ∘ cleanCell) = Option.isSome :=
    funext (fun c => cleanCell_isSome c)
  rw [hcomp]
  exact hall

theorem any_isNone_of_all_isSome {l : List (Option String)}
    (hall : l.all Option.isSome = true) : l.any Option.isNone = false := by
  rw [Bool.eq_false_iff]
  intro hany
  obtain ⟨c, hc, hnone⟩ := List.any_eq_true.mp hany
  have := List.all_eq_true.mp hall c hc
  cases c with
  | none => exact Bool.false_ne_true this
  | some v => exact Bool.false_ne_true hnone

/-- C10: with the default `"any"` NaN policy, a row with a missing (NaN)
value in any selected column is dropped before batching — neither it nor its
cleaned form occurs in any table's row group; every rendered markdown table
is `mdTableOf` of one of those NaN-free groups; and for the final left join,
as long as every classification record's id comes from the kept rows, such a
dropped row ends up joined to null classification fields. -/
theorem c10_nan_dropped (rows : List (List (Option String)))
    (cols : List String) (B : Nat) (r : List (Option String))
    (hr : r.any Option.isNone = true) :
    (∀ g ∈ table_row_groups rows B, r ∉ g ∧ r.map cleanCell ∉ g)
    ∧ (∀ s ∈ dataframe_to_markdown_tables rows cols B,
        ∃ g, g ∈ table_row_groups rows B ∧ s = mdTableOf cols g)
    ∧ (∀ (df : List DataRow) (row : DataRow) (recs : List SLRecord),
        row ∈ df → row.text = none →
        (df.map DataRow.unique_id).Nodup →
        (∀ rec ∈ recs, rec.id ∈ (classify_kept df).map DataRow.unique_id) →
        (row, (none : Option SLRecord)) ∈ left_merge SLRecord.id df recs
        ∧ ∀ rec : SLRecord, (row, some rec) ∉ left_merge SLRecord.id df recs) := by
  refine ⟨?_, ?_, ?_⟩
  · intro g hg
    have hsub := chunksGo_mem_subset B _ _ g hg
    constructor
    · intro hrg
      have hall := mem_cleaned_all_isSome (hsub r hrg)
      rw [any_isNone_of_all_isSome hall] at hr
      exact Bool.false_ne_true hr
    · intro hrg
      have hall := mem_cleaned_all_isSome (hsub _ hrg)
      rw [List.all_map] at hall
      have hcomp : (Option.isSome ∘ cleanCell) = Option.isSome :=
        funext (fun c => cleanCell_isSome c)
      rw [hcomp] at hall
      rw [any_isNone_of_all_isSome hall] at hr
      exact Bool.false_ne_true hr
  · intro s hs
    obtain ⟨g, hg, hfg⟩ := List.mem_map.mp hs
    exact ⟨g, hg, hfg.symm⟩
  · intro df row recs hrowdf htext hnodup hids
    apply left_merge_of_no_match SLRecord.id df recs row hrowdf
    intro rec hrec heq
    obtain ⟨row', hrow', hueq⟩ := List.mem_map.mp (hids rec hrec)
    have huu : row'.unique_id = row.unique_id := by rw [hueq, heq]
    have hrow'df : row' ∈ df := List.mem_of_mem_filter hrow'
    have hrr : row' = row := List.inj_on_of_nodup_map hnodup hrow'df hrowdf huu
    subst hrr
    have hsome := (List.mem_filter.mp hrow').2
    rw [htext] at hsome
    exact Bool.false_ne_true (by simpa using hsome)

/-- Witness for C10 at a concrete two-row frame whose second row has a NaN
text cell. -/
theorem c10_nan_dropped_witness :
    ([some "ID000002", none] : List (Option String))
      ∉ (table_row_groups
          [[some "ID000001", some "a"], [some "ID000002", none]] 20).getD 0 []
    ∧ ((⟨"ID000002", none⟩ : DataRow), (none : Option SLRecord))
        ∈ left_merge SLRecord.id
            [⟨"ID000001", some "a"⟩, ⟨"ID000002", none⟩]
            [⟨"ID000001", "cat"⟩] :=
  ⟨((c10_nan_dropped
      [[some "ID000001", some "a"], [some "ID000002", none]]
      ["unique_id", "text"] 20 [some "ID000002", none] (by decide)).1
      _ (by decide)).1,
   ((c10_nan_dropped
      [[some "ID000001", some "a"], [some "ID000002", none]]
      ["unique_id", "text"] 20 [some "ID000002", none] (by decide)).2.2
      [⟨"ID000001", some "a"⟩, ⟨"ID000002", none⟩] ⟨"ID000002", none⟩
      [⟨"ID000001", "cat"⟩] (by decide) rfl (by decide) (by decide)).1⟩

theorem mem_flat_outcomes {R : Type} {outcomes : List (Except String (List R))}
    {rec : R}
    (h : rec ∈ (outcomes.map (fun o => classify_single_batch o)).flatten) :
    ∃ (j : Nat) (recs : List R),
      outcomes[j]? = some (Except.ok recs) ∧ rec ∈ recs := by
  rw [List.mem_flatten] at h
  obtain ⟨L, hL, hrecL⟩ := h
  obtain ⟨o, ho, rfl⟩ := List.mem_map.mp hL
  obtain ⟨j, hj⟩ := List.mem_iff_getElem?.mp ho
  cases o with
  | error e => exact absurd hrecL (by simp [classify_single_batch])
  | ok recs => exact ⟨j, recs, hj, hrecL⟩

theorem getD_map_uid (L : List (List DataRow)) (i : Nat) :
    (L.map (List.map DataRow.unique_id)).getD i []
      = (L.getD i []).map DataRow.unique_id := by
  induction L generalizing i with
  | nil => cases i <;> rfl
  | cons g t ih =>
    cases i with
    | zero => rfl
    | succ j => simpa using ih j

theorem classify_groups_map_uid (df : List DataRow) (B : Nat) :
    (classify_groups df B).map (List.map DataRow.unique_id)
      = chunks ((classify_kept df).map DataRow.unique_id) B := by
  unfold classify_groups chunks
  rw [List.length_map, chunksGo_map]

/-- C4 (amended): provided at least one batch contributes at least one
record (`flat` non-empty), a failed batch raises nothing: `classify_texts`
returns the left-joined frame, and every row of the failed batch appears in
it joined to null classification fields — assuming the batch size is
positive, the generated row ids are unique, there is one outcome per table,
and each successful batch's records only reference ids shown in that batch's
table.  (When every batch fails, `flat` is empty and the merge raises
`KeyError: 'id'` instead — see the counterexample.) -/
theorem c4_batch_failure (df : List DataRow) (B : Nat)
    (outcomes : List (Except String (List SLRecord)))
    (hB : 1 ≤ B)
    (hnodup : (df.map DataRow.unique_id).Nodup)
    (hlen : outcomes.length = (classify_groups df B).length)
    (hconf : ∀ (j : Nat) (o : Except String (List SLRecord)),
      outcomes[j]? = some o → ∀ rec ∈ classify_single_batch o,
        rec.id ∈ ((classify_groups df B).getD j []).map DataRow.unique_id)
    (i : Nat) (e : String)
    (hfail : outcomes[i]? = some (Except.error e))
    (row : DataRow) (hrow : row ∈ (classify_groups df B).getD i [])
    (hflat : ((outcomes.map (fun o => classify_single_batch o)).flatten).isEmpty
        = false) :
    classify_texts_sl df B outcomes
      = Except.ok (left_merge SLRecord.id df
          ((outcomes.map (fun o => classify_single_batch o)).flatten))
    ∧ (row, (none : Option SLRecord)) ∈ left_merge SLRecord.id df
          ((outcomes.map (fun o => classify_single_batch o)).flatten)
    ∧ ∀ rec : SLRecord, (row, some rec) ∉ left_merge SLRecord.id df
          ((outcomes.map (fun o => classify_single_batch o)).flatten) := by
  have hgi : i < (classify_groups df B).length := by
    by_contra hc
    push_neg at hc
    rw [List.getD_eq_default _ _ hc] at hrow
    exact absurd hrow (List.not_mem_nil row)
  have hrowkept : row ∈ classify_kept df := by
    have hmemg : (classify_groups df B).getD i [] ∈ classify_groups df B := by
      rw [List.getD_eq_getElem _ _ hgi]
      exact List.getElem_mem hgi
    exact chunksGo_mem_subset B _ _ _ hmemg row hrow
  have hrowdf : row ∈ df := List.mem_of_mem_filter hrowkept
  -- the kept ids, grouped per table, are pairwise disjoint
  have hnodupkept : ((classify_kept df).map DataRow.unique_id).Nodup :=
    hnodup.sublist ((List.filter_sublist df).map DataRow.unique_id)
  have hflatten :
      ((classify_groups df B).map (List.map DataRow.unique_id)).flatten
        = (classify_kept df).map DataRow.unique_id := by
    rw [classify_groups_map_uid]
    exact chunksGo_join B hB _ _ (by rw [List.length_map])
  have hdisj : ((classify_groups df B).map
      (List.map DataRow.unique_id)).Pairwise List.Disjoint :=
    (List.nodup_flatten.mp (by rw [hflatten]; exact hnodupkept)).2
  -- no record in the flattened results carries this row's id
  have hnorec : ∀ rec ∈ (outcomes.map
      (fun o => classify_single_batch o)).flatten,
      SLRecord.id rec ≠ row.unique_id := by
    intro rec hrec heq
    obtain ⟨j, recs, hj, hrecs⟩ := mem_flat_outcomes hrec
    have hidj : rec.id ∈ ((classify_groups df B).getD j []).map
        DataRow.unique_id :=
      hconf j _ hj rec (by simpa [classify_single_batch] using hrecs)
    have hji : j ≠ i := by
      intro h
      subst h
      rw [hj] at hfail
      exact absurd (Option.some.inj hfail) (by intro h; cases h)
    have hgj : j < (classify_groups df B).length := by
      have := (List.getElem?_eq_some_iff.mp hj).1
      omega
    have hrowid : row.unique_id ∈ ((classify_groups df B).getD i []).map
        DataRow.unique_id :=
      List.mem_map.mpr ⟨row, hrow, rfl⟩
    rw [heq] at hidj
    -- two distinct groups both contain row.unique_id: contradicts disjointness
    have hpw := List.pairwise_iff_getElem.mp hdisj
    rw [List.getD_eq_getElem _ _ hgj] at hidj
    rw [List.getD_eq_getElem _ _ hgi] at hrowid
    rcases Nat.lt_or_ge j i with hlt | hge
    · have hd := hpw j i (by simpa using hgj) (by simpa using hgi) hlt
      simp only [List.getElem_map] at hd
      exact hd hidj hrowid
    · have hij : i < j := by omega
      have hd := hpw i j (by simpa using hgi) (by simpa using hgj) hij
      simp only [List.getElem_map] at hd
      exact hd hrowid hidj
  have hlm := left_merge_of_no_match SLRecord.id df _ row hrowdf hnorec
  refine ⟨?_, hlm.1, hlm.2⟩
  simp only [classify_texts_sl, hflat]
  rfl

/-- C4 counterexample: a run whose only batch fails accumulates no
classification records; `pd.DataFrame([])` then has no `id` column and
`df.merge(..., right_on="id", how="left")` raises `KeyError` to the caller —
the failed batch's row is not returned with null classification fields, and
an exception IS raised, contradicting the claim's universal statement. -/
theorem c4_counterexample :
    classify_texts_sl [⟨"ID000001", some "hello"⟩] 20 [Except.error "boom"]
      = Except.error "KeyError: id"
    ∧ ∀ res, classify_texts_sl [⟨"ID000001", some "hello"⟩] 20
        [Except.error "boom"] ≠ Except.ok res :=
  ⟨rfl, fun _ h => Except.noConfusion h⟩

/-- Witness for C4 (amended): two one-row batches, the first fails, the
second succeeds; the first batch's row is joined to null fields and no
exception is raised. -/
theorem c4_batch_failure_witness :
    classify_texts_sl
        [⟨"ID000001", some "t1"⟩, ⟨"ID000002", some "t2"⟩] 1
        [Except.error "boom", Except.ok [⟨"ID000002", "catX"⟩]]
      = Except.ok
          [(⟨"ID000001", some "t1"⟩, none),
           (⟨"ID000002", some "t2"⟩, some ⟨"ID000002", "catX"⟩)]
    ∧ ((⟨"ID000001", some "t1"⟩ : DataRow), (none : Option SLRecord))
        ∈ ([(⟨"ID000001", some "t1"⟩, none),
            (⟨"ID000002", some "t2"⟩, some ⟨"ID000002", "catX"⟩)]
           : List (DataRow × Option SLRecord))
    ∧ ((⟨"ID000001", some "t1"⟩ : DataRow),
        some (⟨"ID000002", "catX"⟩ : SLRecord))
        ∉ ([(⟨"ID000001", some "t1"⟩, none),
            (⟨"ID000002", some "t2"⟩, some ⟨"ID000002", "catX"⟩)]
           : List (DataRow × Option SLRecord)) := by
  have h := c4_batch_failure
    [⟨"ID000001", some "t1"⟩, ⟨"ID000002", some "t2"⟩] 1
    [Except.error "boom", Except.ok [⟨"ID000002", "catX"⟩]]
    (by decide) (by decide) (by decide)
    (by
      intro j o hj rec hrec
      cases j with
      | zero =>
        have ho : Except.error (ε := String)
            (α := List SLRecord) "boom" = o := Option.some.inj hj
        rw [← ho] at hrec
        exact absurd hrec (List.not_mem_nil rec)
      | succ j' =>
        cases j' with
        | zero =>
          have ho : Except.ok (ε := String)
              ([⟨"ID000002", "catX"⟩] : List SLRecord) = o := Option.some.inj hj
          rw [← ho] at hrec
          have hre : rec = ⟨"ID000002", "catX"⟩ := List.mem_singleton.mp hrec
          subst hre
          decide
        | succ j'' =>
          have hnone : (([Except.error "boom",
              Except.ok [⟨"ID000002", "catX"⟩]]
              : List (Except String (List SLRecord))))[j'' + 2]? = none := rfl
          rw [hnone] at hj
          exact Option.noConfusion hj)
    0 "boom" rfl ⟨"ID000001", some "t1"⟩ (by decide) (by decide)
  exact ⟨h.1, h.2.1, h.2.2 ⟨"ID000002", "catX"⟩⟩

/-- C3 counterexample: the spec's own scenario — categories `["A","B"]` for
row 1 and `["B"]` for row 2.  `.apply(pd.Series)` expands the category
*lists positionally*: the columns are `category_0` and `category_1` holding
category NAMES (`category_1` null for row 2), and no `category_A` /
`category_B` boolean indicator columns exist. -/
theorem c3_counterexample :
    classify_texts_ml
        [⟨"ID000001", some "r1"⟩, ⟨"ID000002", some "r2"⟩] 20
        [Except.ok [⟨"ID000001", ["A", "B"]⟩, ⟨"ID000002", ["B"]⟩]]
      = Except.ok (["category_0", "category_1"],
          [(⟨"ID000001", some "r1"⟩, [some "A", some "B"]),
           (⟨"ID000002", some "r2"⟩, [some "B", none])])
    ∧ "category_A" ∉ (["category_0", "category_1"] : List String)
    ∧ "category_B" ∉ (["category_0", "category_1"] : List String) :=
  ⟨rfl, by decide, by decide⟩

/-- C3 (amended): multi-label result assembly expands the per-row category
list positionally, not by name — one column per index `0 … width-1` (width
= the maximum per-row entry count, an unmatched row counting as one NaN
entry), named `category_<index>`; the cell at position `j` holds the `j`-th
category NAME of that row's list (null when the list is shorter or the row
is unmatched). -/
theorem c3_multilabel_positional (df : List DataRow) (B : Nat)
    (outcomes : List (Except String (List MLRecord)))
    (hflat : (ml_flat outcomes).isEmpty = false) :
    classify_texts_ml df B outcomes
      = Except.ok
          ((List.range (ml_width df outcomes)).map
            (fun j => "category_" ++ String.mk (decimalRepr j)),
           (ml_merged df outcomes).map
            (fun p => (p.1, expandRow (ml_width df outcomes)
              (p.2.map MLRecord.categories))))
    ∧ (∀ name ∈ (List.range (ml_width df outcomes)).map
          (fun j => "category_" ++ String.mk (decimalRepr j)),
        ∃ j, j < ml_width df outcomes
          ∧ name = "category_" ++ String.mk (decimalRepr j))
    ∧ (∀ p ∈ ml_merged df outcomes,
        (expandRow (ml_width df outcomes)
            (p.2.map MLRecord.categories)).length = ml_width df outcomes
        ∧ ∀ j, j < ml_width df outcomes →
          (expandRow (ml_width df outcomes)
              (p.2.map MLRecord.categories)).getD j none
            = Option.bind (p.2.map MLRecord.categories)
                (fun l => l.get? j)) := by
  refine ⟨?_, ?_, ?_⟩
  · simp only [classify_texts_ml, hflat]
    rfl
  · intro name hname
    obtain ⟨j, hj, rfl⟩ := List.mem_map.mp hname
    exact ⟨j, List.mem_range.mp hj, rfl⟩
  · intro p _
    cases hcat : p.2.map MLRecord.categories with
    | none =>
      constructor
      · simp [expandRow]
      · intro j hj
        simp only [expandRow, Option.bind]
        rw [List.getD_eq_getElem _ _ (by simpa using hj)]
        simp
    | some l =>
      constructor
      · simp [expandRow]
      · intro j hj
        simp only [expandRow, Option.bind]
        rw [List.getD_eq_getElem _ _ (by simpa using hj)]
        simp

/-- Witness for C3 (amended): one classified row (two categories) and one
unclassified row expand to positional name columns with null padding. -/
theorem c3_multilabel_positional_witness :
    classify_texts_ml
        [⟨"ID000001", some "r1"⟩, ⟨"ID000002", some "r2"⟩] 20
        [Except.ok [⟨"ID000001", ["A", "B"]⟩]]
      = Except.ok (["category_0", "category_1"],
          [(⟨"ID000001", some "r1"⟩, [some "A", some "B"]),
           (⟨"ID000002", some "r2"⟩, [none, none])]) :=
  (c3_multilabel_positional
      [⟨"ID000001", some "r1"⟩, ⟨"ID000002", some "r2"⟩] 20
      [Except.ok [⟨"ID000001", ["A", "B"]⟩]] (by decide)).1
